import Mathlib

/-!
Shallow embedding of the elusiv resumable proof-verification and
commitment-hashing core.

The authoritative source is `src/processor/process.rs` together with
`src/state/program_account.rs`.  The queue module, the verification and
hashing account types, the verifier internals, the error enum, the field
conversions and the pool transfer helper are repository code that is not
under `src/`; those parts are modelled from the spec and marked
`Modelled from the spec:` in their doc comments.

Machine integers that the operations compare for equality (256-bit hashes,
commitments and public keys, 64-bit indices and lamport amounts) are
modelled as `Nat`; no arithmetic that could overflow is performed on them
by the embedded operations.
-/

/-- 256-bit words (nullifier hashes, commitments, public keys).  The embedded
operations only compare them for equality, so they are modelled as `Nat`. -/
abbrev U256 := Nat

/-- Error type of the program.  The first seven constructors are exactly the
variants `process.rs` imports from `crate::error::ElusivError`; the last four
are modelled from the spec (`error.rs` and the queue, nullifier and pool
modules are not under `src/`): `QueueFull`/`QueueEmpty` for the bounded
queues, `DoubleSpend` for a repeated permanent nullifier insertion and
`InsufficientFunds` for a failing pool transfer. -/
inductive ElusivError where
  | InvalidAccount
  | ComputationIsNotYetFinished
  | ComputationIsAlreadyFinished
  | InvalidProof
  | CannotFinalizeUnaryProof
  | CannotFinalizeBinaryProof
  | InvalidFeePayer
  | QueueFull
  | QueueEmpty
  | DoubleSpend
  | InsufficientFunds
deriving DecidableEq

/-- Modelled from the spec: `state/queue.rs` (the `RingQueue` trait and the
queue accounts) is not under `src/`.  A bounded FIFO queue: a capacity fixed
at construction and the ordered list of queued items, oldest first. -/
structure RingQueue (α : Type) where
  capacity : Nat
  items : List α
deriving DecidableEq

/-- Modelled from the spec: `enqueue` fails with `QueueFull` if
`len == capacity`, otherwise appends at the tail. -/
def RingQueue.enqueue {α : Type} (q : RingQueue α) (x : α) :
    Except ElusivError (RingQueue α) :=
  if q.items.length = q.capacity then .error .QueueFull
  else .ok { q with items := q.items ++ [x] }

/-- Modelled from the spec: `dequeue_first` fails with `QueueEmpty` if the
queue is empty, otherwise removes and returns the head (oldest element). -/
def RingQueue.dequeue_first {α : Type} (q : RingQueue α) :
    Except ElusivError (α × RingQueue α) :=
  match q.items with
  | [] => .error .QueueEmpty
  | x :: rest => .ok (x, { q with items := rest })

/-- Modelled from the spec: the `NullifierAccount` type is not under `src/`.
The per-tree permanent, append-only set of spent nullifier hashes. -/
structure NullifierAccount where
  nullifier_hashes : List U256
deriving DecidableEq

/-- Modelled from the spec: permanent nullifier insertion is the actual
double-spend guard — it fails when the hash is already present. -/
def NullifierAccount.insert_nullifier_hash (a : NullifierAccount) (h : U256) :
    Except ElusivError NullifierAccount :=
  if h ∈ a.nullifier_hashes then .error .DoubleSpend
  else .ok { a with nullifier_hashes := a.nullifier_hashes ++ [h] }

/-- Modelled from the spec: the request payload types (`types.rs`) are not
under `src/`; only the fields `process.rs` reads are modelled.  The two tree
indices recorded with the proof data. -/
structure ProofData where
  tree_indices : Nat × Nat
deriving DecidableEq

/-- Modelled from the spec: join-split public inputs — the (up to two)
nullifier hashes being spent and the newly created commitment. -/
structure JoinSplitPublicInputs where
  nullifier_hashes : U256 × U256
  commitment : U256
deriving DecidableEq

/-- Modelled from the spec: public inputs of a Send request. -/
structure SendPublicInputs where
  join_split : JoinSplitPublicInputs
  amount : Nat
  recipient : U256
deriving DecidableEq

/-- Modelled from the spec: public inputs of a Merge request. -/
structure MergePublicInputs where
  join_split : JoinSplitPublicInputs
deriving DecidableEq

/-- Modelled from the spec: public inputs of a Migrate request (only the
first nullifier hash and the first tree index are used). -/
structure MigratePublicInputs where
  join_split : JoinSplitPublicInputs
deriving DecidableEq

/-- Modelled from the spec: a queued Send proof request. -/
structure SendRequest where
  proof_data : ProofData
  public_inputs : SendPublicInputs
  fee_payer : U256
deriving DecidableEq

/-- Modelled from the spec: a queued Merge proof request. -/
structure MergeRequest where
  proof_data : ProofData
  public_inputs : MergePublicInputs
  fee_payer : U256
deriving DecidableEq

/-- Modelled from the spec: a queued Migrate proof request. -/
structure MigrateRequest where
  proof_data : ProofData
  public_inputs : MigratePublicInputs
  fee_payer : U256
deriving DecidableEq

/-- The tagged proof-request variant bound to a verification slot
(`ProofRequest` in the source). -/
inductive ProofRequest where
  | Send (request : SendRequest)
  | Merge (request : MergeRequest)
  | Migrate (request : MigrateRequest)
deriving DecidableEq

/-- The serialized accumulator register bank of a verification slot (the
"rams": curve-point registers, prepared-inputs accumulator, pairing
accumulator, coefficient index), modelled as a list of words. -/
abbrev Rams := List Nat

/-- Modelled from the spec: a verification-key strategy (`proof/vkey.rs` is
not under `src/`): its fixed round total, the pure per-round transition on
the persisted registers (which may fail on malformed curve data), and the
final pairing-identity check. -/
structure VKey where
  rounds : Nat
  stepFn : Nat → Rams → Except ElusivError Rams
  check : Rams → Bool

/-- Modelled from the spec: the per-slot verification record
(`proof/mod.rs` is not under `src/`); exactly the fields `process.rs`
accesses through its getters and setters. -/
structure VerificationAccount where
  is_active : Bool
  is_verified : Bool
  round : Nat
  request : ProofRequest
  rams : Rams
deriving DecidableEq

/-- Modelled from the spec: a queued base-commitment hashing request — the
claimed resulting commitment is compared against the computed digest at
finalization. -/
structure BaseCommitmentHashRequest where
  base_commitment : U256
  amount : Nat
  commitment : U256
deriving DecidableEq

/-- Modelled from the spec: the per-slot base-commitment hashing record
(`commitment/mod.rs` is not under `src/`); the three-element sponge state is
stored as field elements directly. -/
structure BaseCommitmentHashingAccount where
  is_active : Bool
  round : Nat
  total_rounds : Nat
  state : Nat × Nat × Nat
  request : BaseCommitmentHashRequest
  fee_payer : U256
deriving DecidableEq

/-- A payout intent produced by finalizing a Send request (`FinalizeSendRequest`
in the source). -/
structure FinalizeSendRequest where
  amount : Nat
  recipient : U256
deriving DecidableEq

/-- A lamport account (key and balance), standing for a Solana `AccountInfo`. -/
structure AccountInfoL where
  key : U256
  lamports : Nat
deriving DecidableEq

/-- Modelled from the spec: the fixed strategy data supplied by the modules
that are not under `src/` — the three verification keys, the initial register
preparation performed by `VerificationAccount::reset`, the per-round poseidon
transition `binary_poseidon_hash_partial` and sponge seeding of
`BaseCommitmentHashingAccount::reset`, the fixed hashing round total
`TOTAL_POSEIDON_ROUNDS`, and the `MAX_INSTANCES` constants of the two
multi-instance account types. -/
structure Params where
  send_vkey : VKey
  merge_vkey : VKey
  migrate_vkey : VKey
  prepare_rams : ProofRequest → Rams
  poseidon : Nat → Nat × Nat × Nat → Nat × Nat × Nat
  base_seed : BaseCommitmentHashRequest → Nat × Nat × Nat
  total_poseidon_rounds : Nat
  verification_max_instances : Nat
  hash_max_instances : Nat

/-- `MultiInstanceAccount::is_valid` (src/state/program_account.rs:38-40): a
slot index is valid iff it is strictly below the type's `MAX_INSTANCES`. -/
def is_valid (max_instances index : Nat) : Bool :=
  decide (index < max_instances)

/-- Modelled from the spec: `proof/verifier.rs` is not under `src/`.  One
bounded round of the split pairing check: fails past the last round, applies
the round transition (which may fail on malformed curve or field data), and
on the last round reports the pairing-identity result. -/
def verify_partial (vk : VKey) (round : Nat) (rams : Rams) :
    Except ElusivError (Rams × Option Bool) :=
  if round < vk.rounds then
    match vk.stepFn round rams with
    | .error e => .error e
    | .ok rams' =>
      .ok (rams', if round + 1 = vk.rounds then some (vk.check rams') else none)
  else .error .ComputationIsAlreadyFinished

/-- The verification key selected by the request kind (the `match` in
`compute_proof`, src/processor/process.rs:77-81). -/
def vkey_for (p : Params) : ProofRequest → VKey
  | .Send _ => p.send_vkey
  | .Merge _ => p.merge_vkey
  | .Migrate _ => p.migrate_vkey

/-- Modelled from the spec: `VerificationAccount::reset` binds the dequeued
request to the slot, activates it, clears the verified flag, resets the round
counter and prepares the registers from the request. -/
def VerificationAccount.reset (p : Params) (request : ProofRequest) :
    VerificationAccount :=
  { is_active := true, is_verified := false, round := 0, request := request,
    rams := p.prepare_rams request }

/-- Modelled from the spec: `BaseCommitmentHashingAccount::reset` binds the
dequeued request, activates the slot, resets the round counter, sets the
fixed round total and seeds the sponge state from the request. -/
def BaseCommitmentHashingAccount.reset (p : Params)
    (request : BaseCommitmentHashRequest) (fee_payer : U256) :
    BaseCommitmentHashingAccount :=
  { is_active := true, round := 0, total_rounds := p.total_poseidon_rounds,
    state := p.base_seed request, request := request, fee_payer := fee_payer }

/-- Modelled from the spec: `processor/utils.rs` is not under `src/`;
`send_from_pool` moves `amount` lamports from the pool account to the
recipient account. -/
def send_from_pool (pool recipient : AccountInfoL) (amount : Nat) :
    Except ElusivError (AccountInfoL × AccountInfoL) :=
  if amount ≤ pool.lamports then
    .ok ({ pool with lamports := pool.lamports - amount },
         { recipient with lamports := recipient.lamports + amount })
  else .error .InsufficientFunds

/-- The program state the embedded operations act on: one verification slot,
one base-commitment hashing slot, the six queues, the two nullifier ledgers,
the pool and the transaction fee-payer account. -/
structure GlobalState where
  verification_account : VerificationAccount
  hashing_account : BaseCommitmentHashingAccount
  send_queue : RingQueue SendRequest
  merge_queue : RingQueue MergeRequest
  migrate_queue : RingQueue MigrateRequest
  base_commitment_queue : RingQueue BaseCommitmentHashRequest
  commitment_queue : RingQueue U256
  finalize_send_queue : RingQueue FinalizeSendRequest
  nullifier_account0 : NullifierAccount
  nullifier_account1 : NullifierAccount
  pool : AccountInfoL
  fee_payer : AccountInfoL
deriving DecidableEq

/-- `init_send_proof` (src/processor/process.rs:43-62): guards the slot index
and that the slot is inactive, dequeues the oldest Send request and binds it
to the slot.  Each operation returns the reported error (if any) together
with the raw state as left by the source's in-place writes; `invoke` below
applies the runtime's all-or-nothing discipline. -/
def init_send_proof (p : Params) (verification_account_index : Nat)
    (s : GlobalState) : Option ElusivError × GlobalState :=
  if is_valid p.verification_max_instances verification_account_index = false then
    (some .InvalidAccount, s)
  else if s.verification_account.is_active = true then
    (some .ComputationIsNotYetFinished, s)
  else
    match s.send_queue.dequeue_first with
    | .error e => (some e, s)
    | .ok (request, q) =>
      (none, { s with
               send_queue := q,
               verification_account := VerificationAccount.reset p (.Send request) })

/-- `init_merge_proof` (src/processor/process.rs:43-63, same macro): as
`init_send_proof` but for the Merge queue. -/
def init_merge_proof (p : Params) (verification_account_index : Nat)
    (s : GlobalState) : Option ElusivError × GlobalState :=
  if is_valid p.verification_max_instances verification_account_index = false then
    (some .InvalidAccount, s)
  else if s.verification_account.is_active = true then
    (some .ComputationIsNotYetFinished, s)
  else
    match s.merge_queue.dequeue_first with
    | .error e => (some e, s)
    | .ok (request, q) =>
      (none, { s with
               merge_queue := q,
               verification_account := VerificationAccount.reset p (.Merge request) })

/-- `init_migrate_proof` (src/processor/process.rs:43-64, same macro): as
`init_send_proof` but for the Migrate queue. -/
def init_migrate_proof (p : Params) (verification_account_index : Nat)
    (s : GlobalState) : Option ElusivError × GlobalState :=
  if is_valid p.verification_max_instances verification_account_index = false then
    (some .InvalidAccount, s)
  else if s.verification_account.is_active = true then
    (some .ComputationIsNotYetFinished, s)
  else
    match s.migrate_queue.dequeue_first with
    | .error e => (some e, s)
    | .ok (request, q) =>
      (none, { s with
               migrate_queue := q,
               verification_account := VerificationAccount.reset p (.Migrate request) })

/-- `compute_proof` (src/processor/process.rs:67-104): guards the slot index
and activity, runs one round of the split verifier, persists the registers
and increments the round; on the final round it records the result (verified
on success, deactivated on a failed pairing check).  On a verifier error the
source first deactivates the slot and then returns the error
(process.rs:92-95); that partial write is carried in the raw state and
discarded by `invoke`'s rollback. -/
def compute_proof (p : Params) (verification_account_index : Nat)
    (s : GlobalState) : Option ElusivError × GlobalState :=
  if is_valid p.verification_max_instances verification_account_index = false then
    (some .InvalidAccount, s)
  else if s.verification_account.is_active = false then
    (some .ComputationIsNotYetFinished, s)
  else
    let round := s.verification_account.round
    match verify_partial (vkey_for p s.verification_account.request) round
        s.verification_account.rams with
    | .error e =>
      (some e, { s with verification_account :=
        { s.verification_account with is_active := false } })
    | .ok (rams, result) =>
      let va := s.verification_account
      let va :=
        match result with
        | some true => { va with is_verified := true }
        | some false => { va with is_active := false }
        | none => va
      (none, { s with verification_account :=
        { va with rams := rams, round := round + 1 } })

/-- `finalize_proof_binary` (src/processor/process.rs:110-165): guards the
slot index, activity and the verified flag; for a Send or Merge request it
checks the two supplied tree indices against the bound request, inserts both
nullifier hashes into the two ledgers, enqueues (for Send) the payout intent
and the commitment, checks the fee payer recorded in the request and repays
it from the pool (amount 0 in this version); a Migrate request fails with
`CannotFinalizeUnaryProof`. -/
def finalize_proof_binary (p : Params) (verification_account_index : Nat)
    (tree_indices : Nat × Nat) (s : GlobalState) :
    Option ElusivError × GlobalState :=
  if is_valid p.verification_max_instances verification_account_index = false then
    (some .InvalidAccount, s)
  else if s.verification_account.is_active = false then
    (some .ComputationIsNotYetFinished, s)
  else if s.verification_account.is_verified = false then
    (some .InvalidProof, s)
  else
    match s.verification_account.request with
    | .Send request =>
      if tree_indices.1 ≠ request.proof_data.tree_indices.1 then (some .InvalidAccount, s)
      else if tree_indices.2 ≠ request.proof_data.tree_indices.2 then (some .InvalidAccount, s)
      else
        match s.nullifier_account0.insert_nullifier_hash
            request.public_inputs.join_split.nullifier_hashes.1 with
        | .error e => (some e, s)
        | .ok n0 =>
          let s1 := { s with nullifier_account0 := n0 }
          match s1.nullifier_account1.insert_nullifier_hash
              request.public_inputs.join_split.nullifier_hashes.2 with
          | .error e => (some e, s1)
          | .ok n1 =>
            let s2 := { s1 with nullifier_account1 := n1 }
            match s2.finalize_send_queue.enqueue
                { amount := request.public_inputs.amount,
                  recipient := request.public_inputs.recipient } with
            | .error e => (some e, s2)
            | .ok fq =>
              let s3 := { s2 with finalize_send_queue := fq }
              match s3.commitment_queue.enqueue
                  request.public_inputs.join_split.commitment with
              | .error e => (some e, s3)
              | .ok cq =>
                let s4 := { s3 with commitment_queue := cq }
                if s4.fee_payer.key ≠ request.fee_payer then (some .InvalidFeePayer, s4)
                else
                  match send_from_pool s4.pool s4.fee_payer 0 with
                  | .error e => (some e, s4)
                  | .ok (pool, payer) =>
                    (none, { s4 with pool := pool, fee_payer := payer })
    | .Merge request =>
      if tree_indices.1 ≠ request.proof_data.tree_indices.1 then (some .InvalidAccount, s)
      else if tree_indices.2 ≠ request.proof_data.tree_indices.2 then (some .InvalidAccount, s)
      else
        match s.nullifier_account0.insert_nullifier_hash
            request.public_inputs.join_split.nullifier_hashes.1 with
        | .error e => (some e, s)
        | .ok n0 =>
          let s1 := { s with nullifier_account0 := n0 }
          match s1.nullifier_account1.insert_nullifier_hash
              request.public_inputs.join_split.nullifier_hashes.2 with
          | .error e => (some e, s1)
          | .ok n1 =>
            let s2 := { s1 with nullifier_account1 := n1 }
            match s2.commitment_queue.enqueue
                request.public_inputs.join_split.commitment with
            | .error e => (some e, s2)
            | .ok cq =>
              let s3 := { s2 with commitment_queue := cq }
              if s3.fee_payer.key ≠ request.fee_payer then (some .InvalidFeePayer, s3)
              else
                match send_from_pool s3.pool s3.fee_payer 0 with
                | .error e => (some e, s3)
                | .ok (pool, payer) =>
                  (none, { s3 with pool := pool, fee_payer := payer })
    | .Migrate _ => (some .CannotFinalizeUnaryProof, s)

/-- `finalize_proof_unary` (src/processor/process.rs:169-201): as the binary
finalizer but for a Migrate request with a single tree index and nullifier
hash; Send and Merge requests fail with `CannotFinalizeBinaryProof`. -/
def finalize_proof_unary (p : Params) (verification_account_index : Nat)
    (tree_index : Nat) (s : GlobalState) : Option ElusivError × GlobalState :=
  if is_valid p.verification_max_instances verification_account_index = false then
    (some .InvalidAccount, s)
  else if s.verification_account.is_active = false then
    (some .ComputationIsNotYetFinished, s)
  else if s.verification_account.is_verified = false then
    (some .InvalidProof, s)
  else
    match s.verification_account.request with
    | .Migrate request =>
      if tree_index ≠ request.proof_data.tree_indices.1 then (some .InvalidAccount, s)
      else
        match s.nullifier_account0.insert_nullifier_hash
            request.public_inputs.join_split.nullifier_hashes.1 with
        | .error e => (some e, s)
        | .ok n0 =>
          let s1 := { s with nullifier_account0 := n0 }
          match s1.commitment_queue.enqueue
              request.public_inputs.join_split.commitment with
          | .error e => (some e, s1)
          | .ok cq =>
            let s2 := { s1 with commitment_queue := cq }
            if s2.fee_payer.key ≠ request.fee_payer then (some .InvalidFeePayer, s2)
            else
              match send_from_pool s2.pool s2.fee_payer 0 with
              | .error e => (some e, s2)
              | .ok (pool, payer) =>
                (none, { s2 with pool := pool, fee_payer := payer })
    | _ => (some .CannotFinalizeBinaryProof, s)

/-- `init_base_commitment_hash` (src/processor/process.rs:205-217): guards
the slot index and that the hashing slot is inactive, dequeues the oldest
base-commitment request and binds it together with the caller's fee-payer
key. -/
def init_base_commitment_hash (p : Params)
    (base_commitment_hash_account_index : Nat) (s : GlobalState) :
    Option ElusivError × GlobalState :=
  if is_valid p.hash_max_instances base_commitment_hash_account_index = false then
    (some .InvalidAccount, s)
  else if s.hashing_account.is_active = true then
    (some .ComputationIsNotYetFinished, s)
  else
    match s.base_commitment_queue.dequeue_first with
    | .error e => (some e, s)
    | .ok (request, q) =>
      (none, { s with
               base_commitment_queue := q,
               hashing_account :=
                 BaseCommitmentHashingAccount.reset p request s.fee_payer.key })

/-- `compute_base_commitment_hash` (src/processor/process.rs:219-247): guards
the slot index and activity; if the round counter is below the fixed total it
applies one poseidon round to the sponge state and increments the round,
otherwise it fails with `ComputationIsAlreadyFinished`. -/
def compute_base_commitment_hash (p : Params)
    (base_commitment_hash_account_index : Nat) (s : GlobalState) :
    Option ElusivError × GlobalState :=
  if is_valid p.hash_max_instances base_commitment_hash_account_index = false then
    (some .InvalidAccount, s)
  else if s.hashing_account.is_active = false then
    (some .ComputationIsNotYetFinished, s)
  else if s.hashing_account.round < s.hashing_account.total_rounds then
    (none, { s with hashing_account := { s.hashing_account with
      state := p.poseidon s.hashing_account.round s.hashing_account.state,
      round := s.hashing_account.round + 1 } })
  else (some .ComputationIsAlreadyFinished, s)

/-- `finalize_base_commitment_hash` (src/processor/process.rs:249-269):
guards the slot index, activity and that the round counter equals the fixed
total; enqueues the digest (sponge register 0) into the commitment queue only
if it equals the commitment the request claimed — a mismatch is silently
dropped — and deactivates the slot. -/
def finalize_base_commitment_hash (p : Params)
    (base_commitment_hash_account_index : Nat) (s : GlobalState) :
    Option ElusivError × GlobalState :=
  if is_valid p.hash_max_instances base_commitment_hash_account_index = false then
    (some .InvalidAccount, s)
  else if s.hashing_account.is_active = false then
    (some .ComputationIsNotYetFinished, s)
  else if s.hashing_account.round ≠ s.hashing_account.total_rounds then
    (some .ComputationIsNotYetFinished, s)
  else
    let result := s.hashing_account.state.1
    if s.hashing_account.request.commitment = result then
      match s.commitment_queue.enqueue result with
      | .error e => (some e, s)
      | .ok q =>
        (none, { s with
          commitment_queue := q,
          hashing_account := { s.hashing_account with is_active := false } })
    else
      (none, { s with hashing_account :=
        { s.hashing_account with is_active := false } })

/-- The core operations of `process.rs` with their per-call arguments.  The
unimplemented full merkle-hashing operations (placeholder panics in the
source, spec §9) are not modelled. -/
inductive Op where
  | initSendProof (idx : Nat)
  | initMergeProof (idx : Nat)
  | initMigrateProof (idx : Nat)
  | computeProof (idx : Nat)
  | finalizeProofBinary (idx : Nat) (tree_indices : Nat × Nat)
  | finalizeProofUnary (idx : Nat) (tree_index : Nat)
  | initBaseCommitmentHash (idx : Nat)
  | computeBaseCommitmentHash (idx : Nat)
  | finalizeBaseCommitmentHash (idx : Nat)
deriving DecidableEq

/-- Dispatch of an operation to its embedded implementation (raw semantics:
the returned state carries the source's in-place writes even on a failing
return). -/
def runOp (p : Params) : Op → GlobalState → Option ElusivError × GlobalState
  | .initSendProof idx => init_send_proof p idx
  | .initMergeProof idx => init_merge_proof p idx
  | .initMigrateProof idx => init_migrate_proof p idx
  | .computeProof idx => compute_proof p idx
  | .finalizeProofBinary idx ti => finalize_proof_binary p idx ti
  | .finalizeProofUnary idx t => finalize_proof_unary p idx t
  | .initBaseCommitmentHash idx => init_base_commitment_hash p idx
  | .computeBaseCommitmentHash idx => compute_base_commitment_hash p idx
  | .finalizeBaseCommitmentHash idx => finalize_base_commitment_hash p idx

/-- Modelled from the spec: the execution environment admits each operation
as a single all-or-nothing unit — when an operation reports an error, none of
its writes commit and the pre-call state is observed afterwards. -/
def invoke (p : Params) (op : Op) (s : GlobalState) :
    Option ElusivError × GlobalState :=
  match runOp p op s with
  | (some e, _) => (some e, s)
  | (none, s') => (none, s')

/-- The observable state after an invocation (unchanged when the operation
reported an error). -/
def applyOp (p : Params) (op : Op) (s : GlobalState) : GlobalState :=
  (invoke p op s).2

/-- The observable state after a sequence of invocations. -/
def applyOps (p : Params) (ops : List Op) (s : GlobalState) : GlobalState :=
  ops.foldl (fun t o => applyOp p o t) s

/-- Modelled from the spec: one-pass evaluation of the split verifier.
`run_rounds f r n rams` applies rounds `r, r+1, …, r+n-1` in a single
execution, stopping at the first failing round. -/
def run_rounds (f : Nat → Rams → Except ElusivError Rams) :
    Nat → Nat → Rams → Except ElusivError Rams
  | _, 0, rams => .ok rams
  | r, n + 1, rams =>
    match f r rams with
    | .error e => .error e
    | .ok rams' => run_rounds f (r + 1) n rams'

/-- Modelled from the spec: the whole verification of one proof evaluated in
a single pass — all rounds in order, then the pairing-identity check on the
final registers. -/
def verify_full (vk : VKey) (rams : Rams) : Except ElusivError (Rams × Bool) :=
  match run_rounds vk.stepFn 0 vk.rounds rams with
  | .error e => .error e
  | .ok r => .ok (r, vk.check r)

/-- Enqueue a list of items left to right through the queue interface. -/
def RingQueue.enqueueAll {α : Type} (q : RingQueue α) :
    List α → Except ElusivError (RingQueue α)
  | [] => .ok q
  | x :: xs =>
    match q.enqueue x with
    | .error e => .error e
    | .ok q' => q'.enqueueAll xs

/-- Drain up to `n` elements through repeated `dequeue_first`, collecting
them in service order. -/
def RingQueue.drain {α : Type} : Nat → RingQueue α → List α
  | 0, _ => []
  | n + 1, q =>
    match q.dequeue_first with
    | .error _ => []
    | .ok (x, q') => x :: RingQueue.drain n q'

/-- The operations that act on a bound verification slot: stepping and the
two finalizers. -/
def isVerOp : Op → Bool
  | .computeProof _ => true
  | .finalizeProofBinary _ _ => true
  | .finalizeProofUnary _ _ => true
  | _ => false

/-- A verification slot that has resolved to rejected: its verified flag is
unset and either the failed final pairing check deactivated it
(process.rs:86-88), or the verifier fails on the persisted round and
registers (process.rs:92-95), so no further round can ever succeed. -/
def RejectedSlot (p : Params) (s : GlobalState) : Prop :=
  s.verification_account.is_verified = false ∧
  (s.verification_account.is_active = false ∨
    ∃ e, verify_partial (vkey_for p s.verification_account.request)
      s.verification_account.round s.verification_account.rams =
        Except.error e)

/-- A small concrete verification key used to evaluate the theorems on
concrete inputs: two rounds, each prepending the round index to the
registers, and a check accepting a two-element register bank. -/
def exampleVKey : VKey :=
  { rounds := 2,
    stepFn := fun r rams => .ok (r :: rams),
    check := fun rams => decide (rams.length = 2) }

/-- Concrete strategy data for evaluating the theorems. -/
def exampleParams : Params :=
  { send_vkey := exampleVKey, merge_vkey := exampleVKey,
    migrate_vkey := exampleVKey,
    prepare_rams := fun _ => [],
    poseidon := fun r st => (st.1 + r + 1, st.2.1, st.2.2),
    base_seed := fun req => (req.base_commitment, req.amount, 0),
    total_poseidon_rounds := 2,
    verification_max_instances := 1,
    hash_max_instances := 1 }

/-- A concrete Send request. -/
def exampleSendRequest : SendRequest :=
  { proof_data := { tree_indices := (0, 1) },
    public_inputs :=
      { join_split := { nullifier_hashes := (11, 22), commitment := 33 },
        amount := 5, recipient := 77 },
    fee_payer := 9 }

/-- A concrete Migrate request. -/
def exampleMigrateRequest : MigrateRequest :=
  { proof_data := { tree_indices := (0, 0) },
    public_inputs :=
      { join_split := { nullifier_hashes := (44, 0), commitment := 55 } },
    fee_payer := 9 }

/-- A concrete base-commitment hashing request. -/
def exampleHashRequest : BaseCommitmentHashRequest :=
  { base_commitment := 21, amount := 5, commitment := 3 }

/-- A hashing slot that has completed all rounds and whose digest matches the
request's claimed commitment. -/
def exampleHashDoneMatch : BaseCommitmentHashingAccount :=
  { is_active := true, round := 2, total_rounds := 2, state := (3, 0, 0),
    request := exampleHashRequest, fee_payer := 9 }

/-- A hashing slot that has completed all rounds and whose digest differs
from the request's claimed commitment. -/
def exampleHashDoneMismatch : BaseCommitmentHashingAccount :=
  { is_active := true, round := 2, total_rounds := 2, state := (4, 0, 0),
    request := exampleHashRequest, fee_payer := 9 }

/-- A concrete verification slot holding a verified Send proof. -/
def exampleVerifiedAccount : VerificationAccount :=
  { is_active := true, is_verified := true, round := 2,
    request := .Send exampleSendRequest, rams := [1, 0] }

/-- A concrete program state: a verified Send slot, a completed hashing slot,
empty capacity-4 queues, empty nullifier ledgers, a funded pool and the fee
payer recorded in the Send request. -/
def exampleState : GlobalState :=
  { verification_account := exampleVerifiedAccount,
    hashing_account := exampleHashDoneMatch,
    send_queue := { capacity := 4, items := [] },
    merge_queue := { capacity := 4, items := [] },
    migrate_queue := { capacity := 4, items := [] },
    base_commitment_queue := { capacity := 4, items := [] },
    commitment_queue := { capacity := 4, items := [] },
    finalize_send_queue := { capacity := 4, items := [] },
    nullifier_account0 := { nullifier_hashes := [] },
    nullifier_account1 := { nullifier_hashes := [] },
    pool := { key := 0, lamports := 100 },
    fee_payer := { key := 9, lamports := 0 } }

/-- `exampleState` with a freshly bound (round zero, unverified) Send slot. -/
def exampleFreshState : GlobalState :=
  { exampleState with
    verification_account :=
      VerificationAccount.reset exampleParams (.Send exampleSendRequest) }

/-- `exampleState` with an inactive verification slot, an inactive hashing
slot and one queued request in the Send and base-commitment queues. -/
def exampleIdleState : GlobalState :=
  { exampleState with
    verification_account :=
      { exampleVerifiedAccount with is_active := false, is_verified := false },
    hashing_account := { exampleHashDoneMatch with is_active := false },
    send_queue := { capacity := 4, items := [exampleSendRequest] },
    base_commitment_queue := { capacity := 4, items := [exampleHashRequest] } }

/-- `exampleState` with a freshly bound (round zero) hashing slot. -/
def exampleHashFreshState : GlobalState :=
  { exampleState with
    hashing_account :=
      BaseCommitmentHashingAccount.reset exampleParams exampleHashRequest 9 }

lemma invoke_fst (p : Params) (op : Op) (s : GlobalState) :
    (invoke p op s).1 = (runOp p op s).1 := by
  unfold invoke
  rcases h : runOp p op s with ⟨eo, s'⟩
  cases eo <;> simp [h]

lemma invoke_of_error (p : Params) (op : Op) (s : GlobalState) (e : ElusivError)
    (h : (runOp p op s).1 = some e) : invoke p op s = (some e, s) := by
  unfold invoke
  rcases h' : runOp p op s with ⟨eo, s'⟩
  rw [h'] at h
  cases eo with
  | none => simp at h
  | some e' => simp at h; simp [h]

lemma invoke_of_ok (p : Params) (op : Op) (s s' : GlobalState)
    (h : runOp p op s = (none, s')) : invoke p op s = (none, s') := by
  unfold invoke
  rw [h]

lemma invoke_ok_run (p : Params) (op : Op) (s s' : GlobalState)
    (h : invoke p op s = (none, s')) : runOp p op s = (none, s') := by
  unfold invoke at h
  rcases h' : runOp p op s with ⟨eo, t⟩
  rw [h'] at h
  cases eo with
  | none =>
    simp only [Prod.mk.injEq] at h
    rw [h.2]
  | some e' => simp at h

lemma applyOp_of_error (p : Params) (op : Op) (s : GlobalState)
    (h : (runOp p op s).1.isSome) : applyOp p op s = s := by
  unfold applyOp invoke
  rcases h' : runOp p op s with ⟨eo, s'⟩
  rw [h'] at h
  cases eo with
  | none => simp at h
  | some e' => simp

/-- C8: every core operation that returns an error performs no observable
state mutation: under the invocation-atomicity discipline of the execution
environment, a failing call reports its error and every queue, ledger, slot
register, round counter and activity flag is exactly as before the call. -/
theorem c8_error_no_mutation (p : Params) (op : Op) (s : GlobalState)
    (e : ElusivError) (h : (runOp p op s).1 = some e) :
    invoke p op s = (some e, s) ∧
    applyOp p op s = s ∧
    (applyOp p op s).verification_account = s.verification_account ∧
    (applyOp p op s).hashing_account = s.hashing_account ∧
    (applyOp p op s).send_queue = s.send_queue ∧
    (applyOp p op s).merge_queue = s.merge_queue ∧
    (applyOp p op s).migrate_queue = s.migrate_queue ∧
    (applyOp p op s).base_commitment_queue = s.base_commitment_queue ∧
    (applyOp p op s).commitment_queue = s.commitment_queue ∧
    (applyOp p op s).finalize_send_queue = s.finalize_send_queue ∧
    (applyOp p op s).nullifier_account0 = s.nullifier_account0 ∧
    (applyOp p op s).nullifier_account1 = s.nullifier_account1 ∧
    (applyOp p op s).pool = s.pool ∧
    (applyOp p op s).fee_payer = s.fee_payer := by
  have hs : applyOp p op s = s :=
    applyOp_of_error p op s (by rw [h]; rfl)
  refine ⟨invoke_of_error p op s e h, hs, ?_⟩
  rw [hs]
  exact ⟨rfl, rfl, rfl, rfl, rfl, rfl, rfl, rfl, rfl, rfl, rfl, rfl⟩

theorem c8_error_no_mutation_witness :
    invoke exampleParams (.computeProof 0) exampleIdleState =
      (some .ComputationIsNotYetFinished, exampleIdleState) ∧
    applyOp exampleParams (.computeProof 0) exampleIdleState = exampleIdleState :=
  ⟨(c8_error_no_mutation exampleParams (.computeProof 0) exampleIdleState
      .ComputationIsNotYetFinished (by decide)).1,
   (c8_error_no_mutation exampleParams (.computeProof 0) exampleIdleState
      .ComputationIsNotYetFinished (by decide)).2.1⟩

lemma enqueueAll_ok {α : Type} (xs : List α) :
    ∀ q : RingQueue α, q.items.length + xs.length ≤ q.capacity →
      q.enqueueAll xs = .ok { q with items := q.items ++ xs } := by
  induction xs with
  | nil => intro q h; simp [RingQueue.enqueueAll]
  | cons x xs ih =>
    intro q h
    have hq : ¬ q.items.length = q.capacity := by
      simp only [List.length_cons] at h
      omega
    simp only [RingQueue.enqueueAll, RingQueue.enqueue, hq, if_false]
    rw [ih { q with items := q.items ++ [x] }]
    · simp
    · simp only [List.length_append, List.length_singleton]
      simp only [List.length_cons] at h
      omega

lemma drain_items {α : Type} (xs : List α) :
    ∀ q : RingQueue α, q.items = xs → RingQueue.drain xs.length q = xs := by
  induction xs with
  | nil => intro q h; simp [RingQueue.drain]
  | cons x xs ih =>
    intro q h
    simp only [List.length_cons, RingQueue.drain, RingQueue.dequeue_first, h]
    rw [ih { q with items := xs } rfl]

/-- C9: for a bounded queue of capacity `C` starting empty, `C` enqueues all
succeed and leave the items in submission order, the `(C+1)`-th enqueue
fails with `QueueFull`, `dequeue_first` on an empty queue fails with
`QueueEmpty`, and draining a full queue through `dequeue_first` returns the
elements in exactly their insertion order (strict FIFO). -/
theorem c9_bounded_queue_fifo {α : Type} (C : Nat) (xs : List α) (y : α)
    (hlen : xs.length = C) :
    (RingQueue.enqueueAll { capacity := C, items := ([] : List α) } xs =
      .ok { capacity := C, items := xs }) ∧
    (RingQueue.enqueue { capacity := C, items := xs } y =
      .error .QueueFull) ∧
    (RingQueue.dequeue_first { capacity := C, items := ([] : List α) } =
      .error .QueueEmpty) ∧
    (RingQueue.drain C { capacity := C, items := xs } = xs) := by
  refine ⟨?_, ?_, ?_, ?_⟩
  · have := enqueueAll_ok xs { capacity := C, items := ([] : List α) }
      (by simp [hlen])
    simpa using this
  · simp [RingQueue.enqueue, hlen]
  · rfl
  · have := drain_items xs { capacity := C, items := xs } rfl
    rwa [hlen] at this

theorem c9_bounded_queue_fifo_witness :
    (RingQueue.enqueueAll { capacity := 2, items := ([] : List Nat) } [5, 6] =
      .ok { capacity := 2, items := [5, 6] }) ∧
    (RingQueue.enqueue { capacity := 2, items := [5, 6] } 7 =
      .error .QueueFull) ∧
    (RingQueue.dequeue_first { capacity := 2, items := ([] : List Nat) } =
      .error .QueueEmpty) ∧
    (RingQueue.drain 2 { capacity := 2, items := [5, 6] } = [5, 6]) :=
  c9_bounded_queue_fifo 2 [5, 6] 7 rfl

/-- C10: a successful `finalize_base_commitment_hash` always clears the
hashing slot's active flag — also when the computed digest does not match the
request's claimed commitment — and while the slot is inactive every
subsequent compute or finalize call on it fails with no state change, until
a new init rebinds it. -/
theorem c10_finalize_base_consumes_slot (p : Params) (idx : Nat)
    (s : GlobalState) :
    (∀ s', invoke p (.finalizeBaseCommitmentHash idx) s = (none, s') →
      s'.hashing_account.is_active = false) ∧
    (s.hashing_account.is_active = false →
      (invoke p (.computeBaseCommitmentHash idx) s).1.isSome ∧
      applyOp p (.computeBaseCommitmentHash idx) s = s ∧
      (invoke p (.finalizeBaseCommitmentHash idx) s).1.isSome ∧
      applyOp p (.finalizeBaseCommitmentHash idx) s = s) := by
  constructor
  · intro s' h
    have h' := invoke_ok_run _ _ _ _ h
    simp only [runOp, finalize_base_commitment_hash] at h'
    split at h'
    · simp at h'
    split at h'
    · simp at h'
    split at h'
    · simp at h'
    split at h'
    · split at h'
      · simp at h'
      · simp only [Prod.mk.injEq, true_and] at h'
        rw [← h']
    · simp only [Prod.mk.injEq, true_and] at h'
      rw [← h']
  · intro hin
    have hc : (runOp p (.computeBaseCommitmentHash idx) s).1.isSome := by
      simp only [runOp, compute_base_commitment_hash, hin]
      split <;> simp
    have hf : (runOp p (.finalizeBaseCommitmentHash idx) s).1.isSome := by
      simp only [runOp, finalize_base_commitment_hash, hin]
      split <;> simp
    refine ⟨?_, applyOp_of_error _ _ _ hc, ?_, applyOp_of_error _ _ _ hf⟩
    · rw [invoke_fst]; exact hc
    · rw [invoke_fst]; exact hf

theorem c10_finalize_base_consumes_slot_witness :
    (applyOp exampleParams (.finalizeBaseCommitmentHash 0)
        exampleState).hashing_account.is_active = false ∧
    (invoke exampleParams (.computeBaseCommitmentHash 0)
        exampleIdleState).1.isSome ∧
    applyOp exampleParams (.finalizeBaseCommitmentHash 0) exampleIdleState =
      exampleIdleState :=
  ⟨(c10_finalize_base_consumes_slot exampleParams 0 exampleState).1 _ (by decide),
   ((c10_finalize_base_consumes_slot exampleParams 0 exampleIdleState).2
      (by decide)).1,
   ((c10_finalize_base_consumes_slot exampleParams 0 exampleIdleState).2
      (by decide)).2.2.2⟩

/-- C3: every successful step call increments the slot's persisted round
counter by exactly one, and a step call on a slot that is not in the
expected phase — invalid slot index, inactive slot, or round already equal
to the phase total — fails and leaves all state unchanged; for both
`compute_proof` and `compute_base_commitment_hash`. -/
theorem c3_round_monotonic (p : Params) (idx : Nat) (s : GlobalState) :
    (∀ s', invoke p (.computeProof idx) s = (none, s') →
      s'.verification_account.round = s.verification_account.round + 1) ∧
    (∀ s', invoke p (.computeBaseCommitmentHash idx) s = (none, s') →
      s'.hashing_account.round = s.hashing_account.round + 1) ∧
    (is_valid p.verification_max_instances idx = false →
      invoke p (.computeProof idx) s = (some .InvalidAccount, s)) ∧
    (is_valid p.verification_max_instances idx = true →
      s.verification_account.is_active = false →
      invoke p (.computeProof idx) s = (some .ComputationIsNotYetFinished, s)) ∧
    (is_valid p.verification_max_instances idx = true →
      s.verification_account.is_active = true →
      s.verification_account.round =
        (vkey_for p s.verification_account.request).rounds →
      invoke p (.computeProof idx) s =
        (some .ComputationIsAlreadyFinished, s)) ∧
    (is_valid p.hash_max_instances idx = false →
      invoke p (.computeBaseCommitmentHash idx) s = (some .InvalidAccount, s)) ∧
    (is_valid p.hash_max_instances idx = true →
      s.hashing_account.is_active = false →
      invoke p (.computeBaseCommitmentHash idx) s =
        (some .ComputationIsNotYetFinished, s)) ∧
    (is_valid p.hash_max_instances idx = true →
      s.hashing_account.is_active = true →
      s.hashing_account.round = s.hashing_account.total_rounds →
      invoke p (.computeBaseCommitmentHash idx) s =
        (some .ComputationIsAlreadyFinished, s)) := by
  refine ⟨?_, ?_, ?_, ?_, ?_, ?_, ?_, ?_⟩
  · intro s' h
    have h' := invoke_ok_run _ _ _ _ h
    simp only [runOp, compute_proof] at h'
    split at h'
    · simp at h'
    split at h'
    · simp at h'
    split at h'
    · simp at h'
    · simp only [Prod.mk.injEq, true_and] at h'
      rw [← h']
  · intro s' h
    have h' := invoke_ok_run _ _ _ _ h
    simp only [runOp, compute_base_commitment_hash] at h'
    split at h'
    · simp at h'
    split at h'
    · simp at h'
    split at h'
    · simp only [Prod.mk.injEq, true_and] at h'
      rw [← h']
    · simp at h'
  · intro hv
    apply invoke_of_error
    simp [runOp, compute_proof, hv]
  · intro hv hin
    apply invoke_of_error
    simp [runOp, compute_proof, hv, hin]
  · intro hv hact hround
    apply invoke_of_error
    simp [runOp, compute_proof, verify_partial, hv, hact, hround]
  · intro hv
    apply invoke_of_error
    simp [runOp, compute_base_commitment_hash, hv]
  · intro hv hin
    apply invoke_of_error
    simp [runOp, compute_base_commitment_hash, hv, hin]
  · intro hv hact hround
    apply invoke_of_error
    simp [runOp, compute_base_commitment_hash, hv, hact, hround]

theorem c3_round_monotonic_witness :
    (applyOp exampleParams (.computeProof 0)
        exampleFreshState).verification_account.round =
      exampleFreshState.verification_account.round + 1 ∧
    (applyOp exampleParams (.computeBaseCommitmentHash 0)
        exampleHashFreshState).hashing_account.round =
      exampleHashFreshState.hashing_account.round + 1 ∧
    invoke exampleParams (.computeBaseCommitmentHash 0) exampleState =
      (some .ComputationIsAlreadyFinished, exampleState) :=
  ⟨(c3_round_monotonic exampleParams 0 exampleFreshState).1 _ (by decide),
   (c3_round_monotonic exampleParams 0 exampleHashFreshState).2.1 _ (by decide),
   (c3_round_monotonic exampleParams 0 exampleState).2.2.2.2.2.2.2
     (by decide) (by decide) (by decide)⟩

/-- C7: initializing a slot fails when the slot index is not below
`MAX_INSTANCES` or when the slot is currently active, with no request
dequeued in either case; otherwise it removes the oldest request from the
matching queue and binds it to the slot, and on an empty queue it fails with
the slot unchanged — for `init_send_proof` (the macro-generated Merge and
Migrate variants are textually identical) and `init_base_commitment_hash`. -/
theorem c7_init_guards_and_bind (p : Params) (idx : Nat) (s : GlobalState) :
    (is_valid p.verification_max_instances idx = false →
      invoke p (.initSendProof idx) s = (some .InvalidAccount, s)) ∧
    (is_valid p.verification_max_instances idx = true →
      s.verification_account.is_active = true →
      invoke p (.initSendProof idx) s = (some .ComputationIsNotYetFinished, s)) ∧
    (is_valid p.verification_max_instances idx = true →
      s.verification_account.is_active = false →
      s.send_queue.items = [] →
      invoke p (.initSendProof idx) s = (some .QueueEmpty, s)) ∧
    (∀ r rest, is_valid p.verification_max_instances idx = true →
      s.verification_account.is_active = false →
      s.send_queue.items = r :: rest →
      invoke p (.initSendProof idx) s =
        (none, { s with
                 send_queue := { s.send_queue with items := rest },
                 verification_account :=
                   VerificationAccount.reset p (.Send r) })) ∧
    (is_valid p.hash_max_instances idx = false →
      invoke p (.initBaseCommitmentHash idx) s = (some .InvalidAccount, s)) ∧
    (is_valid p.hash_max_instances idx = true →
      s.hashing_account.is_active = true →
      invoke p (.initBaseCommitmentHash idx) s =
        (some .ComputationIsNotYetFinished, s)) ∧
    (is_valid p.hash_max_instances idx = true →
      s.hashing_account.is_active = false →
      s.base_commitment_queue.items = [] →
      invoke p (.initBaseCommitmentHash idx) s = (some .QueueEmpty, s)) ∧
    (∀ r rest, is_valid p.hash_max_instances idx = true →
      s.hashing_account.is_active = false →
      s.base_commitment_queue.items = r :: rest →
      invoke p (.initBaseCommitmentHash idx) s =
        (none, { s with
                 base_commitment_queue :=
                   { s.base_commitment_queue with items := rest },
                 hashing_account :=
                   BaseCommitmentHashingAccount.reset p r s.fee_payer.key })) := by
  refine ⟨?_, ?_, ?_, ?_, ?_, ?_, ?_, ?_⟩
  · intro hv
    apply invoke_of_error
    simp [runOp, init_send_proof, hv]
  · intro hv hact
    apply invoke_of_error
    simp [runOp, init_send_proof, hv, hact]
  · intro hv hin hq
    apply invoke_of_error
    simp [runOp, init_send_proof, RingQueue.dequeue_first, hv, hin, hq]
  · intro r rest hv hin hq
    apply invoke_of_ok
    simp [runOp, init_send_proof, RingQueue.dequeue_first, hv, hin, hq]
  · intro hv
    apply invoke_of_error
    simp [runOp, init_base_commitment_hash, hv]
  · intro hv hact
    apply invoke_of_error
    simp [runOp, init_base_commitment_hash, hv, hact]
  · intro hv hin hq
    apply invoke_of_error
    simp [runOp, init_base_commitment_hash, RingQueue.dequeue_first, hv, hin, hq]
  · intro r rest hv hin hq
    apply invoke_of_ok
    simp [runOp, init_base_commitment_hash, RingQueue.dequeue_first, hv, hin, hq]

theorem c7_init_guards_and_bind_witness :
    invoke exampleParams (.initSendProof 0) exampleIdleState =
      (none, { exampleIdleState with
               send_queue := { exampleIdleState.send_queue with items := [] },
               verification_account :=
                 VerificationAccount.reset exampleParams
                   (.Send exampleSendRequest) }) ∧
    invoke exampleParams (.initSendProof 0) exampleState =
      (some .ComputationIsNotYetFinished, exampleState) ∧
    invoke exampleParams (.initSendProof 5) exampleState =
      (some .InvalidAccount, exampleState) :=
  ⟨(c7_init_guards_and_bind exampleParams 0 exampleIdleState).2.2.2.1
      exampleSendRequest [] (by decide) (by decide) (by decide),
   (c7_init_guards_and_bind exampleParams 0 exampleState).2.1
      (by decide) (by decide),
   (c7_init_guards_and_bind exampleParams 5 exampleState).1 (by decide)⟩

/-- C5: `finalize_base_commitment_hash` on a valid active hashing slot fails
unless the round counter equals the fixed total; when it succeeds it enqueues
the computed digest (sponge state register 0) into the commitment queue if
and only if the digest equals the commitment claimed in the bound request,
and on a mismatch it returns success while enqueuing nothing. -/
theorem c5_finalize_base_digest_check (p : Params) (idx : Nat)
    (s : GlobalState) :
    (is_valid p.hash_max_instances idx = true →
      s.hashing_account.is_active = true →
      s.hashing_account.round ≠ s.hashing_account.total_rounds →
      invoke p (.finalizeBaseCommitmentHash idx) s =
        (some .ComputationIsNotYetFinished, s)) ∧
    (∀ s', invoke p (.finalizeBaseCommitmentHash idx) s = (none, s') →
      s.hashing_account.round = s.hashing_account.total_rounds ∧
      (s.hashing_account.request.commitment = s.hashing_account.state.1 →
        s'.commitment_queue.items =
          s.commitment_queue.items ++ [s.hashing_account.state.1]) ∧
      (s.hashing_account.request.commitment ≠ s.hashing_account.state.1 →
        s'.commitment_queue.items = s.commitment_queue.items)) ∧
    (is_valid p.hash_max_instances idx = true →
      s.hashing_account.is_active = true →
      s.hashing_account.round = s.hashing_account.total_rounds →
      s.hashing_account.request.commitment ≠ s.hashing_account.state.1 →
      invoke p (.finalizeBaseCommitmentHash idx) s =
        (none, { s with hashing_account :=
          { s.hashing_account with is_active := false } })) := by
  refine ⟨?_, ?_, ?_⟩
  · intro hv hact hne
    apply invoke_of_error
    simp [runOp, finalize_base_commitment_hash, hv, hact, hne]
  · intro s' h
    have h' := invoke_ok_run _ _ _ _ h
    simp only [runOp, finalize_base_commitment_hash] at h'
    split at h'
    · simp at h'
    split at h'
    · simp at h'
    split at h'
    · simp at h'
    next hround =>
      have hr : s.hashing_account.round = s.hashing_account.total_rounds := by
        by_contra hc
        exact hround hc
      refine ⟨hr, ?_, ?_⟩
      · intro hmatch
        rw [if_pos hmatch] at h'
        rcases henq : s.commitment_queue.enqueue s.hashing_account.state.1
          with e | q
        · rw [henq] at h'
          simp at h'
        · rw [henq] at h'
          simp only [Prod.mk.injEq, true_and] at h'
          have hq : q.items =
              s.commitment_queue.items ++ [s.hashing_account.state.1] := by
            simp only [RingQueue.enqueue] at henq
            split at henq
            · simp at henq
            · simp only [Except.ok.injEq] at henq
              rw [← henq]
          rw [← h']
          exact hq
      · intro hmis
        rw [if_neg hmis] at h'
        simp only [Prod.mk.injEq, true_and] at h'
        rw [← h']
  · intro hv hact hr hmis
    apply invoke_of_ok
    simp [runOp, finalize_base_commitment_hash, hv, hact, hr, hmis]

theorem c5_finalize_base_digest_check_witness :
    (applyOp exampleParams (.finalizeBaseCommitmentHash 0)
        exampleState).commitment_queue.items = [3] ∧
    invoke exampleParams (.finalizeBaseCommitmentHash 0)
        { exampleState with hashing_account := exampleHashDoneMismatch } =
      (none, { exampleState with hashing_account :=
        { exampleHashDoneMismatch with is_active := false } }) :=
  ⟨((c5_finalize_base_digest_check exampleParams 0 exampleState).2.1 _
      (by decide)).2.1 (by decide),
   (c5_finalize_base_digest_check exampleParams 0
      { exampleState with hashing_account := exampleHashDoneMismatch }).2.2
      (by decide) (by decide) (by decide) (by decide)⟩

lemma insert_nullifier_ok (a a' : NullifierAccount) (h : U256)
    (hh : a.insert_nullifier_hash h = .ok a') :
    a'.nullifier_hashes = a.nullifier_hashes ++ [h] ∧
      h ∉ a.nullifier_hashes := by
  simp only [NullifierAccount.insert_nullifier_hash] at hh
  split at hh
  · simp at hh
  · next hmem =>
      simp only [Except.ok.injEq] at hh
      exact ⟨by rw [← hh], hmem⟩

lemma insert_nullifier_mem (a : NullifierAccount) (h : U256)
    (hmem : h ∈ a.nullifier_hashes) :
    a.insert_nullifier_hash h = .error .DoubleSpend := by
  simp [NullifierAccount.insert_nullifier_hash, hmem]

lemma enqueue_ok_items {α : Type} (q q' : RingQueue α) (x : α)
    (hh : q.enqueue x = .ok q') : q'.items = q.items ++ [x] := by
  simp only [RingQueue.enqueue] at hh
  split at hh
  · simp at hh
  · simp only [Except.ok.injEq] at hh
    rw [← hh]

lemma bool_not_false {b : Bool} (h : ¬(b = false)) : b = true := by
  cases b
  · exact absurd rfl h
  · rfl

lemma finalize_binary_ok_char (p : Params) (idx : Nat) (ti : Nat × Nat)
    (s s' : GlobalState)
    (h : runOp p (.finalizeProofBinary idx ti) s = (none, s')) :
    is_valid p.verification_max_instances idx = true ∧
    s.verification_account.is_active = true ∧
    s.verification_account.is_verified = true ∧
    s'.verification_account = s.verification_account ∧
    s'.pool.lamports = s.pool.lamports ∧
    s'.fee_payer.lamports = s.fee_payer.lamports ∧
    ((∃ r, s.verification_account.request = .Send r ∧
        ti = r.proof_data.tree_indices ∧
        s.fee_payer.key = r.fee_payer ∧
        s'.nullifier_account0.nullifier_hashes =
          s.nullifier_account0.nullifier_hashes ++
            [r.public_inputs.join_split.nullifier_hashes.1] ∧
        s'.nullifier_account1.nullifier_hashes =
          s.nullifier_account1.nullifier_hashes ++
            [r.public_inputs.join_split.nullifier_hashes.2] ∧
        s'.finalize_send_queue.items =
          s.finalize_send_queue.items ++
            [{ amount := r.public_inputs.amount,
               recipient := r.public_inputs.recipient }] ∧
        s'.commitment_queue.items =
          s.commitment_queue.items ++
            [r.public_inputs.join_split.commitment]) ∨
      (∃ r, s.verification_account.request = .Merge r ∧
        ti = r.proof_data.tree_indices ∧
        s.fee_payer.key = r.fee_payer ∧
        s'.nullifier_account0.nullifier_hashes =
          s.nullifier_account0.nullifier_hashes ++
            [r.public_inputs.join_split.nullifier_hashes.1] ∧
        s'.nullifier_account1.nullifier_hashes =
          s.nullifier_account1.nullifier_hashes ++
            [r.public_inputs.join_split.nullifier_hashes.2] ∧
        s'.finalize_send_queue = s.finalize_send_queue ∧
        s'.commitment_queue.items =
          s.commitment_queue.items ++
            [r.public_inputs.join_split.commitment])) := by
  simp only [runOp, finalize_proof_binary] at h
  split at h
  · simp at h
  rename_i hv
  split at h
  · simp at h
  rename_i hact
  split at h
  · simp at h
  rename_i hver
  refine ⟨bool_not_false hv, bool_not_false hact, bool_not_false hver, ?_⟩
  split at h
  · -- Send branch
    rename_i r hreq
    split at h
    · simp at h
    rename_i ht1
    split at h
    · simp at h
    rename_i ht2
    split at h
    · simp at h
    rename_i n0 hn0
    split at h
    · simp at h
    rename_i n1 hn1
    split at h
    · simp at h
    rename_i fq hfq
    split at h
    · simp at h
    rename_i cq hcq
    split at h
    · simp at h
    rename_i hkey
    split at h
    · simp at h
    rename_i pool payer hpool
    simp only [Prod.mk.injEq, true_and] at h
    subst h
    simp only [send_from_pool, Nat.zero_le, if_true] at hpool
    simp only [Except.ok.injEq, Prod.mk.injEq] at hpool
    refine ⟨rfl, ?_, ?_, Or.inl ⟨r, hreq, Prod.ext (not_not.mp ht1)
      (not_not.mp ht2), not_not.mp hkey, (insert_nullifier_ok _ _ _ hn0).1,
      (insert_nullifier_ok _ _ _ hn1).1, enqueue_ok_items _ _ _ hfq,
      enqueue_ok_items _ _ _ hcq⟩⟩
    · rw [← hpool.1]
      simp
    · rw [← hpool.2]
      simp
  · -- Merge branch
    rename_i r hreq
    split at h
    · simp at h
    rename_i ht1
    split at h
    · simp at h
    rename_i ht2
    split at h
    · simp at h
    rename_i n0 hn0
    split at h
    · simp at h
    rename_i n1 hn1
    split at h
    · simp at h
    rename_i cq hcq
    split at h
    · simp at h
    rename_i hkey
    split at h
    · simp at h
    rename_i pool payer hpool
    simp only [Prod.mk.injEq, true_and] at h
    subst h
    simp only [send_from_pool, Nat.zero_le, if_true] at hpool
    simp only [Except.ok.injEq, Prod.mk.injEq] at hpool
    refine ⟨rfl, ?_, ?_, Or.inr ⟨r, hreq, Prod.ext (not_not.mp ht1)
      (not_not.mp ht2), not_not.mp hkey, (insert_nullifier_ok _ _ _ hn0).1,
      (insert_nullifier_ok _ _ _ hn1).1, rfl,
      enqueue_ok_items _ _ _ hcq⟩⟩
    · rw [← hpool.1]
      simp
    · rw [← hpool.2]
      simp
  · -- Migrate branch
    simp at h

/-- C6: `finalize_proof_binary` on a valid, active, verified slot bound to a
Send request fails with `InvalidAccount` unless both supplied tree indices
equal the indices recorded in the bound request; on success it inserts both
of the request's nullifier hashes into the two nullifier ledgers, enqueues a
`FinalizeSendRequest` carrying the request's amount and recipient, enqueues
the request's commitment into the commitment queue and repays the recorded
fee payer from the pool (amount 0 in this version), failing with
`InvalidFeePayer` when the supplied fee payer differs from the recorded
one. -/
theorem c6_finalize_binary_send (p : Params) (idx : Nat) (ti : Nat × Nat)
    (s : GlobalState) (r : SendRequest)
    (hreq : s.verification_account.request = .Send r) :
    (is_valid p.verification_max_instances idx = true →
      s.verification_account.is_active = true →
      s.verification_account.is_verified = true →
      (ti.1 ≠ r.proof_data.tree_indices.1 ∨
        ti.2 ≠ r.proof_data.tree_indices.2) →
      invoke p (.finalizeProofBinary idx ti) s = (some .InvalidAccount, s)) ∧
    (∀ s', invoke p (.finalizeProofBinary idx ti) s = (none, s') →
      ti = r.proof_data.tree_indices ∧
      s.fee_payer.key = r.fee_payer ∧
      s'.nullifier_account0.nullifier_hashes =
        s.nullifier_account0.nullifier_hashes ++
          [r.public_inputs.join_split.nullifier_hashes.1] ∧
      s'.nullifier_account1.nullifier_hashes =
        s.nullifier_account1.nullifier_hashes ++
          [r.public_inputs.join_split.nullifier_hashes.2] ∧
      s'.finalize_send_queue.items =
        s.finalize_send_queue.items ++
          [{ amount := r.public_inputs.amount,
             recipient := r.public_inputs.recipient }] ∧
      s'.commitment_queue.items =
        s.commitment_queue.items ++
          [r.public_inputs.join_split.commitment] ∧
      s'.pool.lamports = s.pool.lamports ∧
      s'.fee_payer.lamports = s.fee_payer.lamports) ∧
    (is_valid p.verification_max_instances idx = true →
      s.verification_account.is_active = true →
      s.verification_account.is_verified = true →
      ti = r.proof_data.tree_indices →
      r.public_inputs.join_split.nullifier_hashes.1 ∉
        s.nullifier_account0.nullifier_hashes →
      r.public_inputs.join_split.nullifier_hashes.2 ∉
        s.nullifier_account1.nullifier_hashes →
      s.finalize_send_queue.items.length ≠ s.finalize_send_queue.capacity →
      s.commitment_queue.items.length ≠ s.commitment_queue.capacity →
      s.fee_payer.key ≠ r.fee_payer →
      invoke p (.finalizeProofBinary idx ti) s =
        (some .InvalidFeePayer, s)) := by
  refine ⟨?_, ?_, ?_⟩
  · intro hv hact hver hne
    apply invoke_of_error
    rcases hne with h1 | h2
    · simp [runOp, finalize_proof_binary, hv, hact, hver, hreq, h1]
    · by_cases h1 : ti.1 = r.proof_data.tree_indices.1
      · simp [runOp, finalize_proof_binary, hv, hact, hver, hreq, h1, h2]
      · simp [runOp, finalize_proof_binary, hv, hact, hver, hreq, h1]
  · intro s' h
    have h' := invoke_ok_run _ _ _ _ h
    rcases finalize_binary_ok_char p idx ti s s' h' with
      ⟨hv, hact, hver, hva, hpool, hpayer, hsend | hmerge⟩
    · obtain ⟨r', hreq', hti, hkey, hn0, hn1, hfq, hcq⟩ := hsend
      rw [hreq] at hreq'
      injection hreq' with hr
      subst hr
      exact ⟨hti, hkey, hn0, hn1, hfq, hcq, hpool, hpayer⟩
    · exfalso
      obtain ⟨r', hreq', _⟩ := hmerge
      rw [hreq] at hreq'
      cases hreq'
  · intro hv hact hver hti hm0 hm1 hl1 hl2 hkey
    apply invoke_of_error
    simp [runOp, finalize_proof_binary, NullifierAccount.insert_nullifier_hash,
      RingQueue.enqueue, hv, hact, hver, hreq, hti, hm0, hm1, hl1, hl2, hkey]

theorem c6_finalize_binary_send_witness :
    (0, 1) = exampleSendRequest.proof_data.tree_indices ∧
    (applyOp exampleParams (.finalizeProofBinary 0 (0, 1))
        exampleState).nullifier_account0.nullifier_hashes = [11] ∧
    (applyOp exampleParams (.finalizeProofBinary 0 (0, 1))
        exampleState).finalize_send_queue.items =
      [{ amount := 5, recipient := 77 }] ∧
    (applyOp exampleParams (.finalizeProofBinary 0 (0, 1))
        exampleState).commitment_queue.items = [33] ∧
    invoke exampleParams (.finalizeProofBinary 0 (1, 1)) exampleState =
      (some .InvalidAccount, exampleState) :=
  ⟨((c6_finalize_binary_send exampleParams 0 (0, 1) exampleState
      exampleSendRequest rfl).2.1
      (applyOp exampleParams (.finalizeProofBinary 0 (0, 1)) exampleState)
      (by decide)).1,
   ((c6_finalize_binary_send exampleParams 0 (0, 1) exampleState
      exampleSendRequest rfl).2.1
      (applyOp exampleParams (.finalizeProofBinary 0 (0, 1)) exampleState)
      (by decide)).2.2.1,
   ((c6_finalize_binary_send exampleParams 0 (0, 1) exampleState
      exampleSendRequest rfl).2.1
      (applyOp exampleParams (.finalizeProofBinary 0 (0, 1)) exampleState)
      (by decide)).2.2.2.2.1,
   ((c6_finalize_binary_send exampleParams 0 (0, 1) exampleState
      exampleSendRequest rfl).2.1
      (applyOp exampleParams (.finalizeProofBinary 0 (0, 1)) exampleState)
      (by decide)).2.2.2.2.2.1,
   (c6_finalize_binary_send exampleParams 0 (1, 1) exampleState
      exampleSendRequest rfl).1 (by decide) (by decide) (by decide)
      (Or.inl (by decide))⟩

/-- C1 (counterexample): on a concrete verified Send slot the first
`finalize_proof_binary` succeeds, yet the slot's record (activity and
verified flags) is left untouched — there is no Finalized state — and the
second identical call fails with the nullifier ledger's `DoubleSpend`
rejection, not with any AlreadyFinalized-style error (the nearest error the
code defines is `ComputationIsAlreadyFinished`, which is not returned). -/
theorem c1_counterexample_no_already_finalized :
    (invoke exampleParams (.finalizeProofBinary 0 (0, 1)) exampleState).1 =
      none ∧
    (applyOp exampleParams (.finalizeProofBinary 0 (0, 1))
        exampleState).verification_account =
      exampleState.verification_account ∧
    (invoke exampleParams (.finalizeProofBinary 0 (0, 1))
        (applyOp exampleParams (.finalizeProofBinary 0 (0, 1))
          exampleState)).1 = some .DoubleSpend ∧
    (invoke exampleParams (.finalizeProofBinary 0 (0, 1))
        (applyOp exampleParams (.finalizeProofBinary 0 (0, 1))
          exampleState)).1 ≠ some .ComputationIsAlreadyFinished := by
  decide

/-- C1 (amended): after a successful `finalize_proof_binary` on a slot, a
second call with the same arguments fails — through the permanent nullifier
ledger's double-spend rejection, since the code defines no AlreadyFinalized
error and leaves the slot's flags untouched — and by invocation atomicity
the second call enqueues no second commitment and commits no nullifier hash
a second time (the state is unchanged). -/
theorem c1_amended_second_finalize_fails (p : Params) (idx : Nat)
    (ti : Nat × Nat) (s s' : GlobalState)
    (h : invoke p (.finalizeProofBinary idx ti) s = (none, s')) :
    (invoke p (.finalizeProofBinary idx ti) s').1 = some .DoubleSpend ∧
    applyOp p (.finalizeProofBinary idx ti) s' = s' := by
  have h' := invoke_ok_run _ _ _ _ h
  rcases finalize_binary_ok_char p idx ti s s' h' with
    ⟨hv, hact, hver, hva, hpool, hpayer, hsend | hmerge⟩
  · obtain ⟨r, hreq, hti, hkey, hn0, hn1, hfq, hcq⟩ := hsend
    have hmem : r.public_inputs.join_split.nullifier_hashes.1 ∈
        s'.nullifier_account0.nullifier_hashes := by
      rw [hn0]
      simp
    have hfst : (runOp p (.finalizeProofBinary idx ti) s').1 =
        some .DoubleSpend := by
      simp [runOp, finalize_proof_binary, hv, hva, hact, hver, hreq, hti,
        insert_nullifier_mem _ _ hmem]
    refine ⟨by rw [invoke_fst]; exact hfst,
      applyOp_of_error _ _ _ (by rw [hfst]; rfl)⟩
  · obtain ⟨r, hreq, hti, hkey, hn0, hn1, hfq, hcq⟩ := hmerge
    have hmem : r.public_inputs.join_split.nullifier_hashes.1 ∈
        s'.nullifier_account0.nullifier_hashes := by
      rw [hn0]
      simp
    have hfst : (runOp p (.finalizeProofBinary idx ti) s').1 =
        some .DoubleSpend := by
      simp [runOp, finalize_proof_binary, hv, hva, hact, hver, hreq, hti,
        insert_nullifier_mem _ _ hmem]
    refine ⟨by rw [invoke_fst]; exact hfst,
      applyOp_of_error _ _ _ (by rw [hfst]; rfl)⟩

theorem c1_amended_second_finalize_fails_witness :
    (invoke exampleParams (.finalizeProofBinary 0 (0, 1))
        (applyOp exampleParams (.finalizeProofBinary 0 (0, 1))
          exampleState)).1 = some .DoubleSpend ∧
    applyOp exampleParams (.finalizeProofBinary 0 (0, 1))
        (applyOp exampleParams (.finalizeProofBinary 0 (0, 1)) exampleState) =
      applyOp exampleParams (.finalizeProofBinary 0 (0, 1)) exampleState :=
  c1_amended_second_finalize_fails exampleParams 0 (0, 1) exampleState
    (applyOp exampleParams (.finalizeProofBinary 0 (0, 1)) exampleState)
    (by decide)

lemma rejected_verop_fails (p : Params) (s : GlobalState)
    (h : RejectedSlot p s) (op : Op) (hop : isVerOp op = true) :
    (runOp p op s).1.isSome := by
  obtain ⟨hver, hcase⟩ := h
  cases op with
  | initSendProof idx => simp [isVerOp] at hop
  | initMergeProof idx => simp [isVerOp] at hop
  | initMigrateProof idx => simp [isVerOp] at hop
  | initBaseCommitmentHash idx => simp [isVerOp] at hop
  | computeBaseCommitmentHash idx => simp [isVerOp] at hop
  | finalizeBaseCommitmentHash idx => simp [isVerOp] at hop
  | computeProof idx =>
    by_cases hv : is_valid p.verification_max_instances idx = false
    · simp [runOp, compute_proof, hv]
    · rcases hcase with hin | ⟨e, he⟩
      · simp [runOp, compute_proof, hv, hin]
      · by_cases ha : s.verification_account.is_active = false
        · simp [runOp, compute_proof, hv, ha]
        · simp [runOp, compute_proof, hv, ha, he]
  | finalizeProofBinary idx ti =>
    by_cases hv : is_valid p.verification_max_instances idx = false
    · simp [runOp, finalize_proof_binary, hv]
    · by_cases ha : s.verification_account.is_active = false
      · simp [runOp, finalize_proof_binary, hv, ha]
      · simp [runOp, finalize_proof_binary, hv, ha, hver]
  | finalizeProofUnary idx t =>
    by_cases hv : is_valid p.verification_max_instances idx = false
    · simp [runOp, finalize_proof_unary, hv]
    · by_cases ha : s.verification_account.is_active = false
      · simp [runOp, finalize_proof_unary, hv, ha]
      · simp [runOp, finalize_proof_unary, hv, ha, hver]

lemma rejected_trace_fixed (p : Params) (s : GlobalState)
    (h : RejectedSlot p s) :
    ∀ ops : List Op, (∀ o ∈ ops, isVerOp o = true) → applyOps p ops s = s := by
  intro ops
  induction ops with
  | nil => intro _; rfl
  | cons o ops ih =>
    intro hall
    have ho := hall o (List.mem_cons_self o ops)
    have hstep : applyOp p o s = s :=
      applyOp_of_error _ _ _ (rejected_verop_fails p s h o ho)
    simp only [applyOps, List.foldl_cons, hstep]
    exact ih fun o' ho' => hall o' (List.mem_cons_of_mem _ ho')

/-- C4: a verification slot that resolved to rejected — the final pairing
check returned false (deactivating it), or a step failed with a computation
error on its persisted round — is terminal: every subsequent step or
finalize call on it fails, any sequence of such calls leaves the whole state
(in particular the commitment queue, the payout queue and both nullifier
ledgers) unchanged, so no commitment enqueue and no permanent nullifier
insertion is ever produced from that slot afterwards; and both rejection
outcomes of `compute_proof` do produce such a rejected slot. -/
theorem c4_rejected_slot_terminal (p : Params) (s : GlobalState)
    (h : RejectedSlot p s) :
    (∀ op, isVerOp op = true →
      (invoke p op s).1.isSome ∧ applyOp p op s = s) ∧
    (∀ ops : List Op, (∀ o ∈ ops, isVerOp o = true) →
      applyOps p ops s = s) ∧
    (∀ ops : List Op, (∀ o ∈ ops, isVerOp o = true) →
      (applyOps p ops s).commitment_queue = s.commitment_queue ∧
      (applyOps p ops s).finalize_send_queue = s.finalize_send_queue ∧
      (applyOps p ops s).nullifier_account0 = s.nullifier_account0 ∧
      (applyOps p ops s).nullifier_account1 = s.nullifier_account1) ∧
    (∀ t idx e, t.verification_account.is_verified = false →
      is_valid p.verification_max_instances idx = true →
      invoke p (.computeProof idx) t = (some e, t) → RejectedSlot p t) ∧
    (∀ t idx s', t.verification_account.is_verified = false →
      runOp p (.computeProof idx) t = (none, s') →
      s'.verification_account.is_active = false → RejectedSlot p s') := by
  refine ⟨?_, rejected_trace_fixed p s h, ?_, ?_, ?_⟩
  · intro op hop
    have hf := rejected_verop_fails p s h op hop
    exact ⟨by rw [invoke_fst]; exact hf, applyOp_of_error _ _ _ hf⟩
  · intro ops hall
    rw [rejected_trace_fixed p s h ops hall]
    exact ⟨rfl, rfl, rfl, rfl⟩
  · intro t idx e hver hv hinv
    have hfst : (runOp p (.computeProof idx) t).1 = some e := by
      rw [← invoke_fst, hinv]
    refine ⟨hver, ?_⟩
    by_cases ha : t.verification_account.is_active = false
    · exact Or.inl ha
    · right
      simp only [runOp, compute_proof, hv, Bool.true_eq_false, if_false,
        ha, if_neg] at hfst
      rcases hvp : verify_partial (vkey_for p t.verification_account.request)
          t.verification_account.round t.verification_account.rams
        with e' | pair
      · exact ⟨e', rfl⟩
      · rw [hvp] at hfst
        simp at hfst
  · intro t idx s' hver hrun hact'
    simp only [runOp, compute_proof] at hrun
    split at hrun
    · simp at hrun
    split at hrun
    · simp at hrun
    rename_i hv ha
    split at hrun
    · simp at hrun
    rename_i rams result hvp
    split at hrun
    · -- result = some true: slot stays active, contradiction with hact'
      simp only [Prod.mk.injEq, true_and] at hrun
      rw [← hrun] at hact'
      exact absurd hact' ha
    · -- result = some false: the rejected outcome
      simp only [Prod.mk.injEq, true_and] at hrun
      refine ⟨?_, Or.inl hact'⟩
      rw [← hrun]
      exact hver
    · -- result = none: slot stays active, contradiction with hact'
      simp only [Prod.mk.injEq, true_and] at hrun
      rw [← hrun] at hact'
      exact absurd hact' ha

theorem c4_rejected_slot_terminal_witness :
    ((invoke exampleParams (.finalizeProofBinary 0 (0, 1))
        exampleIdleState).1.isSome ∧
      applyOp exampleParams (.finalizeProofBinary 0 (0, 1)) exampleIdleState =
        exampleIdleState) ∧
    applyOps exampleParams
        [.computeProof 0, .finalizeProofUnary 0 0, .finalizeProofBinary 0 (0, 1)]
        exampleIdleState = exampleIdleState :=
  ⟨(c4_rejected_slot_terminal exampleParams exampleIdleState
      ⟨rfl, Or.inl rfl⟩).1 (.finalizeProofBinary 0 (0, 1)) (by decide),
   (c4_rejected_slot_terminal exampleParams exampleIdleState
      ⟨rfl, Or.inl rfl⟩).2.1
      [.computeProof 0, .finalizeProofUnary 0 0, .finalizeProofBinary 0 (0, 1)]
      (by decide)⟩

lemma run_rounds_succ (f : Nat → Rams → Except ElusivError Rams) (r n : Nat)
    (rams : Rams) :
    run_rounds f r (n + 1) rams =
      match run_rounds f r n rams with
      | .error e => .error e
      | .ok x => f (r + n) x := by
  induction n generalizing r rams with
  | zero =>
    cases hf : f r rams <;> simp [run_rounds, hf]
  | succ n ih =>
    cases hf : f r rams with
    | error e => simp [run_rounds, hf]
    | ok x =>
      have h1 : run_rounds f r (n + 1 + 1) rams =
          run_rounds f (r + 1) (n + 1) x := by
        simp only [run_rounds, hf]
      rw [h1, ih]
      simp only [show r + 1 + n = r + (n + 1) from by omega]
      have h2 : run_rounds f r (n + 1) rams = run_rounds f (r + 1) n x := by
        simp only [run_rounds, hf]
      rw [h2]

lemma run_rounds_ok_succ (f : Nat → Rams → Except ElusivError Rams) (k : Nat)
    (rams z : Rams) (h : run_rounds f 0 (k + 1) rams = .ok z) :
    ∃ y, run_rounds f 0 k rams = .ok y ∧ f k y = .ok z := by
  rw [run_rounds_succ] at h
  simp only [Nat.zero_add] at h
  rcases hy : run_rounds f 0 k rams with e | y
  · rw [hy] at h
    simp at h
  · rw [hy] at h
    refine ⟨y, rfl, ?_⟩
    simpa using h

lemma compute_iter_invariant (p : Params) (idx : Nat) (s : GlobalState)
    (hv : is_valid p.verification_max_instances idx = true)
    (hact : s.verification_account.is_active = true)
    (hround : s.verification_account.round = 0) :
    ∀ k, k < (vkey_for p s.verification_account.request).rounds →
      ∀ rk, run_rounds (vkey_for p s.verification_account.request).stepFn 0 k
          s.verification_account.rams = .ok rk →
      (applyOp p (.computeProof idx))^[k] s =
        { s with verification_account :=
          { s.verification_account with rams := rk, round := k } } := by
  intro k
  induction k with
  | zero =>
    intro _ rk hrun
    have hrk : rk = s.verification_account.rams := by
      simp only [run_rounds, Except.ok.injEq] at hrun
      exact hrun.symm
    subst hrk
    conv_rhs => rw [← hround]
    rfl
  | succ k ih =>
    intro hk rk hrun
    rcases run_rounds_ok_succ _ _ _ _ hrun with ⟨y, hy, hf⟩
    have hmid := ih (by omega) y hy
    rw [Function.iterate_succ_apply', hmid]
    have hklt : k < (vkey_for p s.verification_account.request).rounds := by
      omega
    have hkne : ¬(k + 1 = (vkey_for p s.verification_account.request).rounds) := by
      omega
    have hrunstep : runOp p (.computeProof idx)
        { s with verification_account :=
          { s.verification_account with rams := y, round := k } } =
        (none, { s with verification_account :=
          { s.verification_account with rams := rk, round := k + 1 } }) := by
      simp [runOp, compute_proof, verify_partial, hv, hact, hklt, hkne, hf]
    simp [applyOp, invoke_of_ok _ _ _ _ hrunstep]

/-- C2: for a fixed request bound to a verification slot, stepping the slot
to completion (the code performs exactly one round per `compute_proof`
invocation) yields final accumulator registers and a verified flag identical
to the spec's one-pass evaluation `verify_full`, and any split of the round
sequence into separate invocation batches composes to the same final state —
each step is a pure function of the persisted registers and round index. -/
theorem c2_step_determinism (p : Params) (idx : Nat) (s : GlobalState)
    (finalRams : Rams) (b : Bool)
    (hv : is_valid p.verification_max_instances idx = true)
    (hact : s.verification_account.is_active = true)
    (hver : s.verification_account.is_verified = false)
    (hround : s.verification_account.round = 0)
    (hpos : 0 < (vkey_for p s.verification_account.request).rounds)
    (hfull : verify_full (vkey_for p s.verification_account.request)
        s.verification_account.rams = .ok (finalRams, b)) :
    ((applyOp p (.computeProof idx))^[(vkey_for p
        s.verification_account.request).rounds] s).verification_account.rams =
      finalRams ∧
    ((applyOp p (.computeProof idx))^[(vkey_for p
        s.verification_account.request).rounds]
        s).verification_account.is_verified = b ∧
    ((applyOp p (.computeProof idx))^[(vkey_for p
        s.verification_account.request).rounds]
        s).verification_account.round =
      (vkey_for p s.verification_account.request).rounds ∧
    (∀ k1 k2, k1 + k2 = (vkey_for p s.verification_account.request).rounds →
      (applyOp p (.computeProof idx))^[k2]
          ((applyOp p (.computeProof idx))^[k1] s) =
        (applyOp p (.computeProof idx))^[(vkey_for p
          s.verification_account.request).rounds] s) := by
  have hsplit : ∀ k1 k2,
      k1 + k2 = (vkey_for p s.verification_account.request).rounds →
      (applyOp p (.computeProof idx))^[k2]
          ((applyOp p (.computeProof idx))^[k1] s) =
        (applyOp p (.computeProof idx))^[(vkey_for p
          s.verification_account.request).rounds] s := by
    intro k1 k2 hk
    rw [← Function.iterate_add_apply, Nat.add_comm, hk]
  rcases hrr : run_rounds (vkey_for p s.verification_account.request).stepFn 0
      (vkey_for p s.verification_account.request).rounds
      s.verification_account.rams with e | r
  · exfalso
    simp only [verify_full, hrr] at hfull
    exact Except.noConfusion hfull
  · have hfr : r = finalRams ∧
        (vkey_for p s.verification_account.request).check r = b := by
      simp only [verify_full, hrr, Except.ok.injEq, Prod.mk.injEq] at hfull
      exact hfull
    obtain ⟨hfr1, hfr2⟩ := hfr
    subst hfr1
    obtain ⟨m, hm⟩ : ∃ m,
        (vkey_for p s.verification_account.request).rounds = m + 1 :=
      ⟨(vkey_for p s.verification_account.request).rounds - 1, by omega⟩
    rw [hm] at hrr
    rcases run_rounds_ok_succ _ _ _ _ hrr with ⟨y, hy, hf⟩
    have hmid := compute_iter_invariant p idx s hv hact hround m (by omega) y hy
    have hmlt : m < (vkey_for p s.verification_account.request).rounds := by
      omega
    have hmeq : m + 1 = (vkey_for p s.verification_account.request).rounds :=
      hm.symm
    cases hb : (vkey_for p s.verification_account.request).check r with
    | true =>
      have hstep : runOp p (.computeProof idx)
          { s with verification_account :=
            { s.verification_account with
              rams := y, round := m } } =
          (none, { s with verification_account :=
            { s.verification_account with
              is_verified := true, rams := r, round := m + 1 } }) := by
        simp [runOp, compute_proof, verify_partial, hv, hact, hmlt, hmeq,
          hf, hb]
      have htop : (applyOp p (.computeProof idx))^[(vkey_for p
          s.verification_account.request).rounds] s =
          { s with verification_account :=
            { s.verification_account with
              is_verified := true, rams := r, round := m + 1 } } := by
        rw [hm, Function.iterate_succ_apply', hmid]
        simp [applyOp, invoke_of_ok _ _ _ _ hstep]
      refine ⟨?_, ?_, ?_, hsplit⟩
      · rw [htop]
      · rw [htop]
        have hbb : b = true := by rw [← hfr2, hb]
        rw [hbb]
      · rw [htop]
        exact hmeq
    | false =>
      have hstep : runOp p (.computeProof idx)
          { s with verification_account :=
            { s.verification_account with
              rams := y, round := m } } =
          (none, { s with verification_account :=
            { s.verification_account with
              is_active := false, rams := r, round := m + 1 } }) := by
        simp [runOp, compute_proof, verify_partial, hv, hact, hmlt, hmeq,
          hf, hb]
      have htop : (applyOp p (.computeProof idx))^[(vkey_for p
          s.verification_account.request).rounds] s =
          { s with verification_account :=
            { s.verification_account with
              is_active := false, rams := r, round := m + 1 } } := by
        rw [hm, Function.iterate_succ_apply', hmid]
        simp [applyOp, invoke_of_ok _ _ _ _ hstep]
      refine ⟨?_, ?_, ?_, hsplit⟩
      · rw [htop]
      · rw [htop]
        have hbb : b = false := by rw [← hfr2, hb]
        rw [hbb]
        exact hver
      · rw [htop]
        exact hmeq

theorem c2_step_determinism_witness :
    ((applyOp exampleParams (.computeProof 0))^[2]
        exampleFreshState).verification_account.rams = [1, 0] ∧
    ((applyOp exampleParams (.computeProof 0))^[2]
        exampleFreshState).verification_account.is_verified = true ∧
    ((applyOp exampleParams (.computeProof 0))^[2]
        exampleFreshState).verification_account.round = 2 ∧
    (applyOp exampleParams (.computeProof 0))^[1]
        ((applyOp exampleParams (.computeProof 0))^[1] exampleFreshState) =
      (applyOp exampleParams (.computeProof 0))^[2] exampleFreshState :=
  ⟨(c2_step_determinism exampleParams 0 exampleFreshState [1, 0] true
      (by decide) (by decide) (by decide) (by decide) (by decide) rfl).1,
   (c2_step_determinism exampleParams 0 exampleFreshState [1, 0] true
      (by decide) (by decide) (by decide) (by decide) (by decide) rfl).2.1,
   (c2_step_determinism exampleParams 0 exampleFreshState [1, 0] true
      (by decide) (by decide) (by decide) (by decide) (by decide) rfl).2.2.1,
   (c2_step_determinism exampleParams 0 exampleFreshState [1, 0] true
      (by decide) (by decide) (by decide) (by decide) (by decide)
      rfl).2.2.2 1 1 rfl⟩
